import Mathlib

/- Shallow embedding of the TypedText typing-animation engine of
   typist-js (src/index.ts).  Text is modelled as lists of characters;
   the DOM text sink is modelled as a log of textContent writes; the
   setTimeout scheduler is modelled as a FIFO list of pending timer
   handles plus a fresh-handle counter (browser timer ids are positive,
   so handles start at 1 and the JS truthiness test on timeoutId is the
   test for a recorded handle).  A step callback that would dereference
   an undefined array slot, a TypeError at runtime, is modelled as the
   Option value none. -/

set_option autoImplicit false

namespace TypistJS

/-- Displayed and configured text, as a sequence of characters. -/
abbrev Str := List Char

/-- The typeSpeedCurvature option. -/
inductive TypeSpeedCurvature
  | linear
  | bezier
  | exponential
  | sine
deriving DecidableEq

/-- Engine configuration.  Default values are the ones the constructor
fills in for omitted options. -/
structure Options where
  strings : List Str
  typeSpeed : ℚ := 50
  loop : Bool := false
  typeSpeedCurvature : TypeSpeedCurvature := TypeSpeedCurvature.sine
  showCursor : Bool := true
  cursorChar : Str := ['|']
  backSpeed : ℚ := 25
  backDelay : ℚ := 1000
  startDelay : ℚ := 0
deriving DecidableEq

/-- Progress callbacks fired by the engine, logged in firing order. -/
inductive CallbackEvent
  | stringStart (index : ℕ)
  | stringComplete (index : ℕ)
  | complete
deriving DecidableEq

/-- The mutable fields of TypedText that the step operation reads and
writes: displayText, currentStringIndex, currentCharIndex, isTyping
and isDestroyed. -/
structure Core where
  displayText : Str
  currentStringIndex : ℕ
  currentCharIndex : ℕ
  isTyping : Bool
  isDestroyed : Bool
deriving DecidableEq

/-- Result of one typeText invocation: the new core state, whether a
setTimeout for the next step was issued, and the callbacks fired and
textContent writes performed during the invocation, in order. -/
structure StepOut where
  core : Core
  sched : Bool
  events : List CallbackEvent
  writes : List Str
deriving DecidableEq

/-- Whole observable state: options, engine core, the recorded timer
handle (timeoutId), the modelled runtime timer queue (every queued
handle runs typeText when fired), the fresh-handle counter, the
cumulative callback and sink logs, and cursor bookkeeping. -/
structure World where
  opts : Options
  core : Core
  timeoutId : Option ℕ
  pending : List ℕ
  nextHandle : ℕ
  events : List CallbackEvent
  sinkWrites : List Str
  cursorActive : Bool
  showCursor : Bool
  elementCleared : Bool
deriving DecidableEq

/-- The branch of typeText taken when the current string is fully
erased (backspacing phase with currentCharIndex = 0): increment
currentStringIndex; past the end either wrap to 0 (loop) or fire
onComplete and return without scheduling; otherwise re-enter the
typing phase and schedule the 500ms inter-string step. -/
def advanceString (o : Options) (c : Core) : StepOut :=
  let c1 : Core := { c with currentStringIndex := c.currentStringIndex + 1 }
  if o.strings.length ≤ c1.currentStringIndex then
    if o.loop then
      ⟨{ c1 with currentStringIndex := 0, isTyping := true }, true, [], []⟩
    else
      ⟨c1, false, [CallbackEvent.complete], []⟩
  else
    ⟨{ c1 with isTyping := true }, true, [], []⟩

/-- One typeText invocation from core state c.  Returns none when the
source would throw a TypeError: strings[currentStringIndex] is
undefined and the branch goes on to read a property of it (an
onStringStart call fired just before such a crash is dropped together
with the crashed step). -/
def typeTextCore (o : Options) (c : Core) : Option StepOut :=
  if o.strings = [] ∨ c.isDestroyed then
    some ⟨c, false, [], []⟩
  else if c.isTyping then
    let startEvents : List CallbackEvent :=
      if c.currentCharIndex = 0 then [CallbackEvent.stringStart c.currentStringIndex] else []
    match o.strings[c.currentStringIndex]? with
    | none => none
    | some s =>
      if c.currentCharIndex < s.length then
        let t := s.take (c.currentCharIndex + 1)
        some ⟨{ c with displayText := t, currentCharIndex := c.currentCharIndex + 1 },
              true, startEvents, [t]⟩
      else
        some ⟨{ c with isTyping := false }, true,
              startEvents ++ [CallbackEvent.stringComplete c.currentStringIndex], []⟩
  else if 0 < c.currentCharIndex then
    match o.strings[c.currentStringIndex]? with
    | none => none
    | some s =>
      let t := s.take (c.currentCharIndex - 1)
      some ⟨{ c with currentCharIndex := c.currentCharIndex - 1, displayText := t },
            true, [], [t]⟩
  else
    some (advanceString o c)

/-- Book-keeping shared by every step: append the callback and sink
logs and, when the step called setTimeout, enqueue the fresh handle
and record it in timeoutId (a step that schedules nothing leaves the
previously recorded handle in place). -/
def applyStep (w : World) (r : StepOut) : World :=
  { w with
    core := r.core
    events := w.events ++ r.events
    sinkWrites := w.sinkWrites ++ r.writes
    pending := if r.sched then w.pending ++ [w.nextHandle] else w.pending
    nextHandle := if r.sched then w.nextHandle + 1 else w.nextHandle
    timeoutId := if r.sched then some w.nextHandle else w.timeoutId }

/-- typeText as a transformer of the whole observable state. -/
def typeText (w : World) : Option World :=
  (typeTextCore w.opts w.core).map (applyStep w)

/-- start(): no-op when destroyed; otherwise reset to string 0, char 0,
typing phase and invoke typeText synchronously. -/
def start (w : World) : Option World :=
  if w.core.isDestroyed then some w
  else
    typeText { w with core :=
      { w.core with currentStringIndex := 0, currentCharIndex := 0, isTyping := true } }

/-- stop(): when a timer handle is recorded in timeoutId, clear that
timer and null the field; otherwise do nothing. -/
def stop (w : World) : World :=
  match w.timeoutId with
  | some h => { w with pending := w.pending.erase h, timeoutId := none }
  | none => w

/-- stopCursorBlink(): clear the blink interval and restore the cursor
to visible. -/
def stopCursorBlink (w : World) : World :=
  { w with cursorActive := false, showCursor := true }

/-- destroy(): set isDestroyed, stop the step timer, stop the cursor
blink, clear the host element. -/
def destroy (w : World) : World :=
  let w1 : World := { w with core := { w.core with isDestroyed := true } }
  let w2 := stop w1
  let w3 := stopCursorBlink w2
  { w3 with elementCleared := true }

/-- reset(): no-op when destroyed; otherwise stop, reset indices and
phase, and clear the displayed text (one more sink write). -/
def reset (w : World) : World :=
  if w.core.isDestroyed then w
  else
    let w1 := stop w
    { w1 with
      core := { w1.core with
        currentStringIndex := 0, currentCharIndex := 0, isTyping := true, displayText := [] }
      sinkWrites := w1.sinkWrites ++ [[]] }

/-- A Partial TypedTextOptions value passed to updateOptions; none
means the key is absent from the update object. -/
structure OptionsPatch where
  strings : Option (List Str) := none
  typeSpeed : Option ℚ := none
  loop : Option Bool := none
  typeSpeedCurvature : Option TypeSpeedCurvature := none
  showCursor : Option Bool := none
  cursorChar : Option Str := none
  backSpeed : Option ℚ := none
  backDelay : Option ℚ := none
  startDelay : Option ℚ := none
deriving DecidableEq

/-- The object-spread merge of the live options with a partial update. -/
def mergeOptions (o : Options) (p : OptionsPatch) : Options :=
  { strings := p.strings.getD o.strings
    typeSpeed := p.typeSpeed.getD o.typeSpeed
    loop := p.loop.getD o.loop
    typeSpeedCurvature := p.typeSpeedCurvature.getD o.typeSpeedCurvature
    showCursor := p.showCursor.getD o.showCursor
    cursorChar := p.cursorChar.getD o.cursorChar
    backSpeed := p.backSpeed.getD o.backSpeed
    backDelay := p.backDelay.getD o.backDelay
    startDelay := p.startDelay.getD o.startDelay }

/-- updateOptions(partial): no-op when destroyed, otherwise merge. -/
def updateOptions (p : OptionsPatch) (w : World) : World :=
  if w.core.isDestroyed then w else { w with opts := mergeOptions w.opts p }

/-- isRunning(): whether a timer handle is recorded, i.e. timeoutId is
not null. -/
def isRunning (w : World) : Bool :=
  w.timeoutId.isSome

/-- The state right after field initialisation, before init()
schedules anything; the cursor-blink interval is installed when
showCursor is enabled. -/
def baseWorld (o : Options) : World :=
  { opts := o
    core := { displayText := [], currentStringIndex := 0, currentCharIndex := 0,
              isTyping := true, isDestroyed := false }
    timeoutId := none
    pending := []
    nextHandle := 1
    events := []
    sinkWrites := []
    cursorActive := o.showCursor
    showCursor := true
    elementCleared := false }

/-- Construction (constructor plus init()): with a nonempty string
sequence, either queue the first step after startDelay — note the
returned timer handle is discarded, not stored in timeoutId — or run
typeText synchronously; with an empty sequence nothing is scheduled. -/
def init (o : Options) : Option World :=
  let w := baseWorld o
  if o.strings = [] then some w
  else if 0 < o.startDelay then
    some { w with pending := w.pending ++ [w.nextHandle], nextHandle := w.nextHandle + 1 }
  else typeText w

/-- The runtime fires queued timer h: the entry leaves the queue and
its callback, typeText, runs.  Firing a handle that is not queued is a
no-op. -/
def fire (h : ℕ) (w : World) : Option World :=
  if h ∈ w.pending then typeText { w with pending := w.pending.erase h }
  else some w

/-- Fire the oldest queued timer, if any. -/
def runStep (w : World) : Option World :=
  match w.pending with
  | [] => some w
  | _ :: rest => typeText { w with pending := rest }

/-- The world n scheduler ticks after construction with options o. -/
def runW (o : Options) : ℕ → Option World
  | 0 => init o
  | n + 1 => (runW o n).bind runStep

/-- One tick of the 530ms cursor-blink interval: the callback only
runs while the interval is installed, and guards on isDestroyed. -/
def fireCursor (w : World) : World :=
  if w.cursorActive then
    if w.core.isDestroyed then w else { w with showCursor := !w.showCursor }
  else w

/-- getSpeedMultiplier from the source, over the reals. -/
noncomputable def getSpeedMultiplier (progress : ℝ) (curvature : TypeSpeedCurvature) : ℝ :=
  match curvature with
  | TypeSpeedCurvature.linear => 1
  | TypeSpeedCurvature.bezier =>
      if progress < 1/2 then 4 * progress * progress * progress
      else 1 - (-2 * progress + 2) ^ 3 / 2
  | TypeSpeedCurvature.exponential => progress ^ 3
  | TypeSpeedCurvature.sine => (Real.sin (progress * Real.pi - Real.pi / 2) + 1) / 2

/-- getCurrentTypeSpeed: linear short-circuits to typeSpeed; a missing
or empty current string (both falsy in the source) also yields
typeSpeed; otherwise typeSpeed is scaled by 3 - 2 * multiplier at
progress currentCharIndex / length. -/
noncomputable def getCurrentTypeSpeed (o : Options) (c : Core) : ℝ :=
  if o.typeSpeedCurvature = TypeSpeedCurvature.linear then (o.typeSpeed : ℝ)
  else
    match o.strings[c.currentStringIndex]? with
    | none => (o.typeSpeed : ℝ)
    | some s =>
      if s = [] then (o.typeSpeed : ℝ)
      else (o.typeSpeed : ℝ) *
        (3 - 2 * getSpeedMultiplier ((c.currentCharIndex : ℝ) / (s.length : ℝ))
          o.typeSpeedCurvature)

/-- The delay passed to window.setTimeout by the step taken from state
c, matched branch by branch with the setTimeout call sites of typeText
(meaningful when that step schedules a successor). -/
noncomputable def stepDelay (o : Options) (c : Core) : ℝ :=
  if c.isTyping then
    if c.currentCharIndex < ((o.strings[c.currentStringIndex]?).getD []).length
    then getCurrentTypeSpeed o c
    else (o.backDelay : ℝ)
  else if 0 < c.currentCharIndex then (o.backSpeed : ℝ)
  else 500

/-- Configuration of the non-looping completion scenario: one string
with two characters, all other options at their defaults. -/
def abConfig : Options := { strings := [['a', 'b']] }

/-- Configuration of the looping scenario: two one-character strings,
loop enabled. -/
def loopConfig : Options := { strings := [['a'], ['b']], loop := true }

/-- Configuration used to exercise updateOptions string replacement. -/
def abcdConfig : Options := { strings := [['a', 'b', 'c', 'd']] }

/-- Configuration with a positive startDelay. -/
def delayConfig : Options := { strings := [['a']], startDelay := 5 }

/-- An updateOptions argument that replaces the strings array by a
single one-character string. -/
def replaceStringsPatch : OptionsPatch := { strings := some [['x']] }

/-- The claimed index bound: currentCharIndex does not exceed the
length of strings[currentStringIndex] (an absent entry reads as
empty). -/
def charIndexInBound (w : World) : Prop :=
  w.core.currentCharIndex ≤ ((w.opts.strings[w.core.currentStringIndex]?).getD []).length

/-- States reachable from construction with options o by firing queued
timers, cursor ticks, and the public operations, where updateOptions
is only used with patches that do not replace the strings array. -/
inductive ReachableNoReplace (o : Options) : World → Prop
  | construct (w : World) : init o = some w → ReachableNoReplace o w
  | fireStep (h : ℕ) (w w' : World) :
      ReachableNoReplace o w → fire h w = some w' → ReachableNoReplace o w'
  | callStart (w w' : World) :
      ReachableNoReplace o w → start w = some w' → ReachableNoReplace o w'
  | callStop (w : World) : ReachableNoReplace o w → ReachableNoReplace o (stop w)
  | callReset (w : World) : ReachableNoReplace o w → ReachableNoReplace o (reset w)
  | callDestroy (w : World) : ReachableNoReplace o w → ReachableNoReplace o (destroy w)
  | callUpdate (p : OptionsPatch) (w : World) : p.strings = none →
      ReachableNoReplace o w → ReachableNoReplace o (updateOptions p w)
  | blink (w : World) : ReachableNoReplace o w → ReachableNoReplace o (fireCursor w)

/-- The eight engine-core states of the steady cycle of loopConfig, in
firing order starting right after construction. -/
def loopCores : List Core :=
  [ ⟨['a'], 0, 1, true, false⟩
  , ⟨['a'], 0, 1, false, false⟩
  , ⟨[], 0, 0, false, false⟩
  , ⟨[], 1, 0, true, false⟩
  , ⟨['b'], 1, 1, true, false⟩
  , ⟨['b'], 1, 1, false, false⟩
  , ⟨[], 1, 0, false, false⟩
  , ⟨[], 0, 0, true, false⟩ ]

/-- Invariant maintained along the undisturbed run of loopConfig: the
options are untouched, exactly one step is pending, and the core is on
the eight-state cycle. -/
def LoopInv (w : World) : Prop :=
  w.opts = loopConfig ∧ w.pending.length = 1 ∧ w.core ∈ loopCores

instance (w : World) : Decidable (LoopInv w) := by
  unfold LoopInv; infer_instance

/-- Core-level step function of the loopConfig run. -/
def loopCoreStep (c : Core) : Core :=
  match typeTextCore loopConfig c with
  | some r => r.core
  | none => c

instance (w : World) : Decidable (charIndexInBound w) := by
  unfold charIndexInBound; infer_instance

/-- A mid-animation state of abConfig: the first character is typed
and the step with handle 1 is pending. -/
def midWorld : World :=
  { opts := abConfig
    core := { displayText := ['a'], currentStringIndex := 0, currentCharIndex := 1,
              isTyping := true, isDestroyed := false }
    timeoutId := some 1
    pending := [1]
    nextHandle := 2
    events := [CallbackEvent.stringStart 0]
    sinkWrites := [['a']]
    cursorActive := true
    showCursor := true
    elementCleared := false }

/-- The state right after construction with delayConfig: the initial
step is queued with handle 1 but no handle is recorded in timeoutId. -/
def delayWorld : World :=
  { opts := delayConfig
    core := { displayText := [], currentStringIndex := 0, currentCharIndex := 0,
              isTyping := true, isDestroyed := false }
    timeoutId := none
    pending := [1]
    nextHandle := 2
    events := []
    sinkWrites := []
    cursorActive := true
    showCursor := true
    elementCleared := false }

/-- C8: once destroy() has run, every public operation and every timer
callback leaves the engine unchanged: destroy is idempotent,
start/stop/reset/updateOptions are no-ops, a queued step that fires is
consumed without any effect on state, logs or scheduling, and the
cursor callback does nothing. -/
theorem destroy_absorbing (w : World) (p : OptionsPatch) (h : ℕ) :
    destroy (destroy w) = destroy w ∧
    (destroy w).core.isDestroyed = true ∧
    start (destroy w) = some (destroy w) ∧
    stop (destroy w) = destroy w ∧
    reset (destroy w) = destroy w ∧
    updateOptions p (destroy w) = destroy w ∧
    fire h (destroy w) = some { destroy w with pending := (destroy w).pending.erase h } ∧
    fireCursor (destroy w) = destroy w := by
  obtain ⟨o, c, t, pe, n, e, s, ca, sc, ec⟩ := w
  obtain ⟨d, i, k, ty, ds⟩ := c
  have hfire : ∀ w' : World, w'.core.isDestroyed = true →
      fire h w' = some { w' with pending := w'.pending.erase h } := by
    intro w' hd
    by_cases hm : h ∈ w'.pending
    · simp [fire, hm, typeText, typeTextCore, hd, applyStep]
    · simp [fire, hm, List.erase_of_not_mem hm]
  cases t with
  | none =>
    refine ⟨rfl, rfl, ?_, rfl, ?_, ?_, ?_, ?_⟩
    · simp [start, destroy, stop, stopCursorBlink]
    · simp [reset, destroy, stop, stopCursorBlink]
    · simp [updateOptions, destroy, stop, stopCursorBlink]
    · exact hfire _ rfl
    · simp [fireCursor, destroy, stop, stopCursorBlink]
  | some t0 =>
    refine ⟨rfl, rfl, ?_, rfl, ?_, ?_, ?_, ?_⟩
    · simp [start, destroy, stop, stopCursorBlink]
    · simp [reset, destroy, stop, stopCursorBlink]
    · simp [updateOptions, destroy, stop, stopCursorBlink]
    · exact hfire _ rfl
    · simp [fireCursor, destroy, stop, stopCursorBlink]

/-- C1 counterexample: from the mid-animation state right after
construction with abConfig (one step pending, handle 1), calling
start() leaves handles 1 and 2 both pending: the prior step is not
cancelled and two step callbacks are queued at once. -/
theorem start_mid_animation_duplicates_pending :
    ((init abConfig).bind start).map World.pending = some [1, 2] ∧
    ((init abConfig).bind start).map (fun w => w.pending.length) = some 2 := by
  constructor <;> decide

/-- C1 amended: on a non-destroyed engine with a nonempty string
sequence, start() resets to string 0, char 0, typing phase and
immediately invokes the step operation, but it does not cancel a
previously pending step: every previously queued handle is still
queued afterwards and exactly one more step has been scheduled. -/
theorem start_restarts_without_cancelling (w : World)
    (hd : w.core.isDestroyed = false) (hs : w.opts.strings ≠ []) :
    start w = typeText { w with core :=
      { w.core with currentStringIndex := 0, currentCharIndex := 0, isTyping := true } } ∧
    ∃ w', start w = some w' ∧
      w'.pending = w.pending ++ [w.nextHandle] ∧
      ∀ x ∈ w.pending, x ∈ w'.pending := by
  have hstart : start w = typeText { w with core :=
      { w.core with currentStringIndex := 0, currentCharIndex := 0, isTyping := true } } := by
    simp [start, hd]
  refine ⟨hstart, ?_⟩
  rcases hstr : w.opts.strings with _ | ⟨s, rest⟩
  · exact absurd hstr hs
  · have hcore : ∃ r, typeTextCore w.opts
        { w.core with currentStringIndex := 0, currentCharIndex := 0, isTyping := true } =
          some r ∧ r.sched = true := by
      unfold typeTextCore
      rw [hstr]
      by_cases hlen : 0 < s.length <;> simp [hd, hlen]
    obtain ⟨r, hr, hsched⟩ := hcore
    refine ⟨applyStep { w with core :=
      { w.core with currentStringIndex := 0, currentCharIndex := 0, isTyping := true } } r,
      ?_, ?_, ?_⟩
    · rw [hstart]; simp [typeText, hr]
    · simp [applyStep, hsched]
    · intro x hx
      simp [applyStep, hsched]
      exact Or.inl hx

/-- C1 witness: the amended statement applied to the concrete
mid-animation state midWorld. -/
theorem start_restarts_without_cancelling_witness :
    start midWorld = typeText { midWorld with core :=
      { midWorld.core with currentStringIndex := 0, currentCharIndex := 0, isTyping := true } } ∧
    ∃ w', start midWorld = some w' ∧
      w'.pending = midWorld.pending ++ [midWorld.nextHandle] ∧
      ∀ x ∈ midWorld.pending, x ∈ w'.pending :=
  start_restarts_without_cancelling midWorld rfl (by decide)

/-- C2 counterexample: after the full type and backspace cycle of
abConfig (strings=[ab], loop=false), the timer queue is empty — no
step is pending — yet isRunning() still returns true, because the
handle of the last fired step is never cleared from timeoutId. -/
theorem isRunning_true_after_completion :
    (runW abConfig 5).map (fun w => (w.pending, isRunning w)) = some ([], true) := by
  decide

/-- C2 amended: for abConfig, after the full cycle (construction step
plus five fired steps) onComplete has fired exactly once and no
further step is ever scheduled — the world is unchanged from tick 5
onward — but isRunning() returns true, since it reports the recorded
timeoutId handle, which is stale after completion. -/
theorem completion_without_loop :
    (runW abConfig 5).map (fun w =>
      (w.events.count CallbackEvent.complete, w.pending, isRunning w)) =
        some (1, [], true) ∧
    (runW abConfig 5).map World.events =
      some [CallbackEvent.stringStart 0, CallbackEvent.stringComplete 0,
            CallbackEvent.complete] ∧
    ∀ n, runW abConfig (5 + n) = runW abConfig 5 := by
  refine ⟨by decide, by decide, ?_⟩
  intro n
  induction n with
  | zero => rfl
  | succ m ih =>
    have hstep : runW abConfig (5 + (m + 1)) = (runW abConfig (5 + m)).bind runStep := rfl
    rw [hstep, ih]
    decide

/-- C4 counterexample: with delayConfig (startDelay = 5), the initial
step is queued by init() but its handle is never stored in timeoutId;
stop() therefore removes nothing from the queue, and when the queued
timer fires after stop() has returned, the step executes: it types the
first character and schedules a successor. -/
theorem stop_misses_startDelay_step :
    ((init delayConfig).map stop).map (fun w => (w.pending, w.timeoutId)) =
      some ([1], none) ∧
    (((init delayConfig).map stop).bind (fire 1)).map
      (fun w => (w.core.displayText, w.core.currentCharIndex, w.pending.length)) =
        some (['a'], 1, 1) := by
  constructor <;> decide

/-- C4 amended: stop() synchronously cancels the pending step whose
handle is recorded in timeoutId — afterwards timeoutId is null,
isRunning() is false and the recorded handle has left the timer
queue.  The initial step scheduled by a configured startDelay is not
recorded in timeoutId, so stop() does not cancel it (the
counterexample shows it firing after stop()). -/
theorem stop_cancels_recorded_step (w : World) (t : ℕ) (h : w.timeoutId = some t) :
    (stop w).pending = w.pending.erase t ∧
    (stop w).timeoutId = none ∧
    isRunning (stop w) = false := by
  simp [stop, h, isRunning]

/-- C4 witness: the amended statement applied to midWorld, whose
recorded handle is 1. -/
theorem stop_cancels_recorded_step_witness :
    (stop midWorld).pending = midWorld.pending.erase 1 ∧
    (stop midWorld).timeoutId = none ∧
    isRunning (stop midWorld) = false :=
  stop_cancels_recorded_step midWorld 1 rfl

/-- Shared bound: every non-linear curve multiplier stays within
[0, 1] on progress values in [0, 1). -/
lemma getSpeedMultiplier_bounds (cv : TypeSpeedCurvature)
    (hcv : cv ≠ TypeSpeedCurvature.linear) {p : ℝ} (h0 : 0 ≤ p) (h1 : p < 1) :
    0 ≤ getSpeedMultiplier p cv ∧ getSpeedMultiplier p cv ≤ 1 := by
  cases cv with
  | linear => exact absurd rfl hcv
  | bezier =>
    simp only [getSpeedMultiplier]
    split_ifs with hp
    · constructor
      · positivity
      · nlinarith [mul_nonneg (mul_nonneg h0 h0) h0, mul_nonneg h0 h0]
    · push_neg at hp
      have ht0 : (0:ℝ) ≤ -2 * p + 2 := by linarith
      have ht1 : -2 * p + 2 ≤ 1 := by linarith
      have hcube : (-2 * p + 2) ^ 3 ≤ 1 := pow_le_one₀ ht0 ht1
      have hcube0 : 0 ≤ (-2 * p + 2) ^ 3 := pow_nonneg ht0 3
      constructor <;> linarith
  | exponential =>
    simp only [getSpeedMultiplier]
    exact ⟨pow_nonneg h0 3, pow_le_one₀ h0 h1.le⟩
  | sine =>
    simp only [getSpeedMultiplier]
    have hs1 := Real.sin_le_one (p * Real.pi - Real.pi / 2)
    have hs2 := Real.neg_one_le_sin (p * Real.pi - Real.pi / 2)
    constructor <;> linarith

/-- C5: for every non-linear curvature, in any typing state whose
current string s is present and nonempty with currentCharIndex below
its length (so progress = currentCharIndex / length lies in [0,1)),
the multiplier lies in [0,1], the effective delay is
typeSpeed * (3 - 2 * multiplier), and with typeSpeed ≥ 0 that delay
lies in [typeSpeed, 3 * typeSpeed]. -/
theorem curve_multiplier_and_delay_bounds (o : Options) (c : Core) (s : Str)
    (hcv : o.typeSpeedCurvature ≠ TypeSpeedCurvature.linear)
    (hs : o.strings[c.currentStringIndex]? = some s) (hne : s ≠ [])
    (hk : c.currentCharIndex < s.length) (hts : 0 ≤ o.typeSpeed) :
    (0 ≤ getSpeedMultiplier ((c.currentCharIndex : ℝ) / (s.length : ℝ))
        o.typeSpeedCurvature ∧
      getSpeedMultiplier ((c.currentCharIndex : ℝ) / (s.length : ℝ))
        o.typeSpeedCurvature ≤ 1) ∧
    getCurrentTypeSpeed o c = (o.typeSpeed : ℝ) *
      (3 - 2 * getSpeedMultiplier ((c.currentCharIndex : ℝ) / (s.length : ℝ))
        o.typeSpeedCurvature) ∧
    (o.typeSpeed : ℝ) ≤ getCurrentTypeSpeed o c ∧
    getCurrentTypeSpeed o c ≤ 3 * (o.typeSpeed : ℝ) := by
  have hlen : 0 < s.length := List.length_pos.mpr hne
  have hlenR : (0:ℝ) < (s.length : ℝ) := by exact_mod_cast hlen
  have hp0 : (0:ℝ) ≤ (c.currentCharIndex : ℝ) / (s.length : ℝ) := by positivity
  have hp1 : (c.currentCharIndex : ℝ) / (s.length : ℝ) < 1 := by
    rw [div_lt_one hlenR]
    exact_mod_cast hk
  obtain ⟨hm0, hm1⟩ := getSpeedMultiplier_bounds o.typeSpeedCurvature hcv hp0 hp1
  have htsR : (0:ℝ) ≤ (o.typeSpeed : ℝ) := by exact_mod_cast hts
  have heq : getCurrentTypeSpeed o c = (o.typeSpeed : ℝ) *
      (3 - 2 * getSpeedMultiplier ((c.currentCharIndex : ℝ) / (s.length : ℝ))
        o.typeSpeedCurvature) := by
    simp [getCurrentTypeSpeed, hcv, hs, hne]
  refine ⟨⟨hm0, hm1⟩, heq, ?_, ?_⟩
  · rw [heq]; nlinarith
  · rw [heq]; nlinarith

/-- Configuration for the C5 witness: exponential curvature. -/
def expConfig : Options :=
  { strings := [['a', 'b']], typeSpeedCurvature := TypeSpeedCurvature.exponential }

/-- Typing state for the C5 witness: one of two characters typed. -/
def expCore : Core := ⟨['a'], 0, 1, true, false⟩

/-- C5 witness: the bounds at expConfig and progress 1/2. -/
theorem curve_multiplier_and_delay_bounds_witness :
    (0 ≤ getSpeedMultiplier ((expCore.currentCharIndex : ℝ) / (((['a', 'b'] : Str)).length : ℝ))
        expConfig.typeSpeedCurvature ∧
      getSpeedMultiplier ((expCore.currentCharIndex : ℝ) / (((['a', 'b'] : Str)).length : ℝ))
        expConfig.typeSpeedCurvature ≤ 1) ∧
    getCurrentTypeSpeed expConfig expCore = (expConfig.typeSpeed : ℝ) *
      (3 - 2 * getSpeedMultiplier
        ((expCore.currentCharIndex : ℝ) / (((['a', 'b'] : Str)).length : ℝ))
        expConfig.typeSpeedCurvature) ∧
    (expConfig.typeSpeed : ℝ) ≤ getCurrentTypeSpeed expConfig expCore ∧
    getCurrentTypeSpeed expConfig expCore ≤ 3 * (expConfig.typeSpeed : ℝ) :=
  curve_multiplier_and_delay_bounds expConfig expCore ['a', 'b']
    (by decide) rfl (by decide) (by decide) (by decide)

/-- Configuration for the C6 witness: linear curvature. -/
def linConfig : Options :=
  { strings := [['a', 'b']], typeSpeedCurvature := TypeSpeedCurvature.linear }

/-- C6: with linear curvature the computed per-character speed is
exactly typeSpeed in every state — the curve computation is skipped —
and in particular every typing-phase step that appends a character
schedules its successor after exactly typeSpeed. -/
theorem linear_curvature_delay (o : Options) (c : Core)
    (h : o.typeSpeedCurvature = TypeSpeedCurvature.linear) :
    getCurrentTypeSpeed o c = (o.typeSpeed : ℝ) ∧
    (c.isTyping = true →
      c.currentCharIndex < ((o.strings[c.currentStringIndex]?).getD []).length →
      stepDelay o c = (o.typeSpeed : ℝ)) := by
  have hg : getCurrentTypeSpeed o c = (o.typeSpeed : ℝ) := by
    simp [getCurrentTypeSpeed, h]
  refine ⟨hg, ?_⟩
  intro ht hlt
  simp [stepDelay, ht, hlt, hg]

/-- C6 witness: the statement at linConfig with one character typed. -/
theorem linear_curvature_delay_witness :
    getCurrentTypeSpeed linConfig expCore = (linConfig.typeSpeed : ℝ) ∧
    (expCore.isTyping = true →
      expCore.currentCharIndex <
        ((linConfig.strings[expCore.currentStringIndex]?).getD []).length →
      stepDelay linConfig expCore = (linConfig.typeSpeed : ℝ)) :=
  linear_curvature_delay linConfig expCore rfl

/-- C7: every backspacing-phase step with currentCharIndex > 0 (and
the current string present) decrements currentCharIndex, writes the
first currentCharIndex characters of the current string to the sink,
schedules a successor, and its delay is exactly the configured
backSpeed — for every curvature setting, since the backspacing branch
never consults the curve. -/
theorem backspacing_fixed_speed (o : Options) (c : Core) (s : Str)
    (ht : c.isTyping = false) (h0 : 0 < c.currentCharIndex)
    (hs : o.strings[c.currentStringIndex]? = some s) (hd : c.isDestroyed = false) :
    typeTextCore o c = some ⟨{ c with
        currentCharIndex := c.currentCharIndex - 1
        displayText := s.take (c.currentCharIndex - 1) }, true, [],
        [s.take (c.currentCharIndex - 1)]⟩ ∧
    stepDelay o c = (o.backSpeed : ℝ) := by
  have hne : o.strings ≠ [] := by
    intro hnil
    rw [hnil] at hs
    simp at hs
  constructor
  · unfold typeTextCore
    simp [hne, hd, ht, h0, hs]
  · simp [stepDelay, ht, h0]

/-- Backspacing state for the C7 witness: both characters of abConfig
typed, phase Backspacing. -/
def bsCore : Core := ⟨['a', 'b'], 0, 2, false, false⟩

/-- C7 witness: the statement at abConfig and bsCore. -/
theorem backspacing_fixed_speed_witness :
    typeTextCore abConfig bsCore = some ⟨{ bsCore with
        currentCharIndex := bsCore.currentCharIndex - 1
        displayText := (['a', 'b'] : Str).take (bsCore.currentCharIndex - 1) }, true, [],
        [(['a', 'b'] : Str).take (bsCore.currentCharIndex - 1)]⟩ ∧
    stepDelay abConfig bsCore = (abConfig.backSpeed : ℝ) :=
  backspacing_fixed_speed abConfig bsCore ['a', 'b'] rfl (by decide) rfl rfl

/-- C10: a typing step reaching an empty configured string fires
onStringStart and onStringComplete in the same invocation, writes
nothing to the sink, flips to the backspacing phase with a backDelay
wait, and the following step runs the advance branch directly: it
moves to string index i+1, or wraps to 0 when past the end with loop
enabled, or fires onComplete and stops when past the end without
loop. -/
theorem empty_string_skipped (o : Options) (c : Core)
    (ht : c.isTyping = true) (h0 : c.currentCharIndex = 0)
    (hs : o.strings[c.currentStringIndex]? = some []) (hd : c.isDestroyed = false) :
    typeTextCore o c = some ⟨{ c with isTyping := false }, true,
      [CallbackEvent.stringStart c.currentStringIndex,
       CallbackEvent.stringComplete c.currentStringIndex], []⟩ ∧
    stepDelay o c = (o.backDelay : ℝ) ∧
    typeTextCore o { c with isTyping := false } =
      some (advanceString o { c with isTyping := false }) ∧
    ((advanceString o { c with isTyping := false }).core.currentStringIndex =
      if o.strings.length ≤ c.currentStringIndex + 1 then
        (if o.loop then 0 else c.currentStringIndex + 1)
      else c.currentStringIndex + 1) ∧
    (¬ o.strings.length ≤ c.currentStringIndex + 1 →
      (advanceString o { c with isTyping := false }).core.isTyping = true ∧
      (advanceString o { c with isTyping := false }).sched = true) ∧
    (o.strings.length ≤ c.currentStringIndex + 1 → o.loop = false →
      (advanceString o { c with isTyping := false }).events = [CallbackEvent.complete] ∧
      (advanceString o { c with isTyping := false }).sched = false) := by
  have hne : o.strings ≠ [] := by
    intro hnil
    rw [hnil] at hs
    simp at hs
  refine ⟨?_, ?_, ?_, ?_, ?_, ?_⟩
  · unfold typeTextCore
    simp [hne, hd, ht, h0, hs]
  · simp [stepDelay, ht, hs, h0]
  · unfold typeTextCore
    simp [hne, hd, ht, h0, hs]
  · by_cases hge : o.strings.length ≤ c.currentStringIndex + 1
    · by_cases hloop : o.loop = true
      · simp [advanceString, hge, hloop]
      · simp [advanceString, hge, hloop]
    · simp [advanceString, hge]
  · intro hlt
    simp [advanceString, hlt]
  · intro hge hloop
    simp [advanceString, hge, hloop]

/-- Configuration for the C10 witness: an empty string followed by a
one-character string. -/
def emptyConfig : Options := { strings := [[], ['a']] }

/-- Initial typing state for the C10 witness. -/
def emptyCore : Core := ⟨[], 0, 0, true, false⟩

/-- C10 witness: the first two conjuncts at emptyConfig and emptyCore. -/
theorem empty_string_skipped_witness :
    typeTextCore emptyConfig emptyCore = some ⟨{ emptyCore with isTyping := false }, true,
      [CallbackEvent.stringStart emptyCore.currentStringIndex,
       CallbackEvent.stringComplete emptyCore.currentStringIndex], []⟩ ∧
    stepDelay emptyConfig emptyCore = (emptyConfig.backDelay : ℝ) :=
  ⟨(empty_string_skipped emptyConfig emptyCore rfl rfl (by decide) rfl).1,
   (empty_string_skipped emptyConfig emptyCore rfl rfl (by decide) rfl).2.1⟩

/-- Every core on the loopConfig cycle steps to a core on the cycle
and schedules a successor. -/
lemma loopCores_closed : ∀ c ∈ loopCores,
    (match typeTextCore loopConfig c with
     | some r => decide (r.core ∈ loopCores) && r.sched
     | none => false) = true := by decide

/-- One scheduler tick preserves the loopConfig invariant and advances
the core by loopCoreStep. -/
lemma loopInv_step (w : World) (hw : LoopInv w) :
    ∃ w', runStep w = some w' ∧ LoopInv w' ∧ w'.core = loopCoreStep w.core := by
  obtain ⟨hopts, hlen, hmem⟩ := hw
  obtain ⟨h, hp⟩ := List.length_eq_one.mp hlen
  have hb := loopCores_closed w.core hmem
  cases hr : typeTextCore loopConfig w.core with
  | none => rw [hr] at hb; simp at hb
  | some r =>
    rw [hr] at hb
    simp only [Bool.and_eq_true, decide_eq_true_eq] at hb
    obtain ⟨hmem', hsched⟩ := hb
    have hr' : typeTextCore w.opts w.core = some r := by rw [hopts]; exact hr
    refine ⟨applyStep { w with pending := [] } r, ?_, ⟨?_, ?_, ?_⟩, ?_⟩
    · simp only [runStep, hp]
      simp [typeText, hr']
    · simp [applyStep, hopts]
    · simp [applyStep, hsched]
    · simpa [applyStep] using hmem'
    · simp [applyStep, loopCoreStep, hr]

/-- Along the undisturbed loopConfig run, every tick succeeds and the
invariant holds. -/
lemma loopRun_inv : ∀ n, ∃ w, runW loopConfig n = some w ∧ LoopInv w := by
  intro n
  induction n with
  | zero =>
    have h0 : (runW loopConfig 0).map (fun w => decide (LoopInv w)) = some true := by decide
    obtain ⟨w, hw, hdec⟩ := Option.map_eq_some'.mp h0
    exact ⟨w, hw, of_decide_eq_true hdec⟩
  | succ m ih =>
    obtain ⟨w, hw, hinv⟩ := ih
    obtain ⟨w', hstep, hinv', _⟩ := loopInv_step w hinv
    refine ⟨w', ?_, hinv'⟩
    have : runW loopConfig (m + 1) = (runW loopConfig m).bind runStep := rfl
    rw [this, hw]
    exact hstep

/-- The core of the loopConfig run is the n-fold iterate of
loopCoreStep from the post-construction core. -/
lemma loopRun_core : ∀ n, (runW loopConfig n).map World.core =
    some (loopCoreStep^[n] ⟨['a'], 0, 1, true, false⟩) := by
  intro n
  induction n with
  | zero => decide
  | succ m ih =>
    obtain ⟨w, hw, hinv⟩ := loopRun_inv m
    obtain ⟨w', hstep, _, hcore⟩ := loopInv_step w hinv
    have hwcore : w.core = loopCoreStep^[m] ⟨['a'], 0, 1, true, false⟩ := by
      rw [hw] at ih
      simpa using ih
    have hbind : runW loopConfig (m + 1) = (runW loopConfig m).bind runStep := rfl
    rw [hbind, hw]
    simp only [Option.some_bind]
    rw [hstep]
    simp only [Option.map_some']
    rw [hcore, hwcore, Function.iterate_succ_apply']

/-- C9: for loopConfig (strings=[a,b], loop=true), tick 6 reaches
string index 1 fully erased in the backspacing phase, the next step
wraps currentStringIndex to 0 in the typing phase with one step
scheduled; moreover a step stays pending at every tick (the engine
never stops on its own) and the engine core repeats with period 8
forever. -/
theorem loop_wraps_and_repeats :
    ((runW loopConfig 6).map (fun w => (w.core.currentStringIndex,
        w.core.currentCharIndex, w.core.isTyping)) = some (1, 0, false)) ∧
    ((runW loopConfig 7).map (fun w => (w.core.currentStringIndex,
        w.core.currentCharIndex, w.core.isTyping, w.pending.length)) =
          some (0, 0, true, 1)) ∧
    (∀ n, ∃ w, runW loopConfig n = some w ∧ w.pending ≠ []) ∧
    (∀ n, (runW loopConfig (n + 8)).map World.core =
      (runW loopConfig n).map World.core) := by
  refine ⟨by decide, by decide, ?_, ?_⟩
  · intro n
    obtain ⟨w, hw, hinv⟩ := loopRun_inv n
    refine ⟨w, hw, ?_⟩
    intro hnil
    have hlen := hinv.2.1
    rw [hnil] at hlen
    simp at hlen
  · intro n
    rw [loopRun_core, loopRun_core]
    have h8 : loopCoreStep^[8] (⟨['a'], 0, 1, true, false⟩ : Core) =
        ⟨['a'], 0, 1, true, false⟩ := by decide
    rw [Function.iterate_add_apply, h8]

/-- A single typeText invocation preserves the character-index bound
at the core level. -/
lemma typeTextCore_charBound (o : Options) (c : Core) (r : StepOut)
    (h : typeTextCore o c = some r)
    (hI : c.currentCharIndex ≤ ((o.strings[c.currentStringIndex]?).getD []).length) :
    r.core.currentCharIndex ≤
      ((o.strings[r.core.currentStringIndex]?).getD []).length := by
  unfold typeTextCore at h
  split at h
  · simp only [Option.some.injEq] at h
    subst h
    exact hI
  · split at h
    · cases hs : o.strings[c.currentStringIndex]? with
      | none => rw [hs] at h; simp at h
      | some s =>
        simp only [hs] at h
        simp only [hs, Option.getD_some] at hI ⊢
        split at h <;> split at h <;>
          · simp only [Option.some.injEq] at h
            subst h
            simp only [hs, Option.getD_some]
            omega
    · split at h
      · cases hs : o.strings[c.currentStringIndex]? with
        | none => rw [hs] at h; simp at h
        | some s =>
          simp only [hs] at h
          simp only [Option.some.injEq] at h
          subst h
          simp only [hs, Option.getD_some] at hI ⊢
          omega
      · simp only [Option.some.injEq] at h
        subst h
        have hc0 : c.currentCharIndex = 0 := by omega
        simp only [advanceString]
        split_ifs <;> simp [hc0]

/-- typeText preserves the character-index bound at the world level. -/
lemma typeText_charBound (w w' : World) (h : typeText w = some w')
    (hI : charIndexInBound w) : charIndexInBound w' := by
  unfold typeText at h
  cases hr : typeTextCore w.opts w.core with
  | none => rw [hr] at h; simp at h
  | some r =>
    rw [hr] at h
    simp only [Option.map_some', Option.some.injEq] at h
    subst h
    exact typeTextCore_charBound w.opts w.core r hr hI

/-- C3 counterexample: with abcdConfig, after the construction step
and two fired steps three characters are typed; an updateOptions call
replacing the strings array by a single one-character string then
leaves currentCharIndex = 3 above the current string length 1, so the
claimed bound fails in a state reached by step callbacks and public
operations including updateOptions. -/
theorem updateOptions_breaks_char_bound :
    ((((init abcdConfig).bind (fire 1)).bind (fire 2)).map
        (updateOptions replaceStringsPatch)).map
      (fun w => (w.core.currentCharIndex,
        ((w.opts.strings[w.core.currentStringIndex]?).getD []).length,
        decide (charIndexInBound w))) = some (3, 1, false) := by
  decide

/-- C3 amended: in every state reachable from construction by firing
timers, cursor ticks and the public operations — with updateOptions
restricted to patches that do not replace the strings array —
currentCharIndex (a natural number, hence ≥ 0) never exceeds the
length of strings[currentStringIndex]. -/
theorem char_index_bound_preserved (o : Options) (w : World)
    (h : ReachableNoReplace o w) : charIndexInBound w := by
  induction h with
  | construct w hw =>
    unfold init at hw
    split at hw
    · simp only [Option.some.injEq] at hw
      subst hw
      simp [charIndexInBound, baseWorld]
    · split at hw
      · simp only [Option.some.injEq] at hw
        subst hw
        simp [charIndexInBound, baseWorld]
      · exact typeText_charBound _ _ hw (by simp [charIndexInBound, baseWorld])
  | fireStep hnd w w' _ hf ih =>
    unfold fire at hf
    split at hf
    · exact typeText_charBound _ _ hf ih
    · simp only [Option.some.injEq] at hf
      subst hf
      exact ih
  | callStart w w' _ hs ih =>
    unfold start at hs
    split at hs
    · simp only [Option.some.injEq] at hs
      subst hs
      exact ih
    · refine typeText_charBound _ _ hs ?_
      simp [charIndexInBound]
  | callStop w _ ih =>
    unfold stop
    split
    · exact ih
    · exact ih
  | callReset w _ ih =>
    unfold reset
    split
    · exact ih
    · unfold stop
      split
      · simp [charIndexInBound]
      · simp [charIndexInBound]
  | callDestroy w _ ih =>
    cases ht : w.timeoutId with
    | none => simpa [charIndexInBound, destroy, stop, stopCursorBlink, ht] using ih
    | some t => simpa [charIndexInBound, destroy, stop, stopCursorBlink, ht] using ih
  | callUpdate p w hp _ ih =>
    unfold updateOptions
    split
    · exact ih
    · simpa [charIndexInBound, mergeOptions, hp] using ih
  | blink w _ ih =>
    unfold fireCursor
    split
    · split
      · exact ih
      · exact ih
    · exact ih

/-- C3 witness: the bound at the concrete post-construction state of
delayConfig. -/
theorem char_index_bound_preserved_witness : charIndexInBound delayWorld :=
  char_index_bound_preserved delayConfig delayWorld
    (ReachableNoReplace.construct delayWorld (by decide))

end TypistJS
